import Mathlib

/-!
Verification of the core of `vscode-test-adapter-remoting-util`.

The development shallowly embeds the TypeScript sources:
  * `src/ipc.ts` — `createConnection` (retrying connector with a post-connect
    grace window), `receiveConnection` (single-shot acceptor), `writeMessage` /
    `readMessages` (newline-delimited JSON codec), and the private helpers
    `createServerAndListen` and `retry`;
  * the worker-proxy source — `createWorkerProxy` and its `dispose` handle;
  * `src/convert.ts` — `localPathConverter`, and the standalone `convertPath`;
  * `src/mocha.ts` — `convertWorkerArgs`.

JavaScript `JSON.stringify` / `JSON.parse` are modelled on the fragment the
library actually transports: JSON values whose numbers are integers.
Asynchronous, event-driven code is modelled by explicit event scripts and
state machines; JS `Error` values are modelled by their message or `code`.
-/

/-- A JSON value (numbers restricted to integers, matching the worker
protocol payloads the library transports). -/
inductive Json where
  | null : Json
  | bool : Bool → Json
  | num : Int → Json
  | str : String → Json
  | arr : List Json → Json
  | obj : List (String × Json) → Json

/-! ### Decimal digits (model of JavaScript number-to-string for integers) -/

/-- The decimal digit character for `d` (callers always pass `d < 10`). -/
def digitChar : Nat → Char
  | 0 => '0'
  | 1 => '1'
  | 2 => '2'
  | 3 => '3'
  | 4 => '4'
  | 5 => '5'
  | 6 => '6'
  | 7 => '7'
  | 8 => '8'
  | _ => '9'

/-- Fuelled big-endian decimal rendering of a natural number. -/
def natDigitsGo : Nat → Nat → List Char → List Char
  | 0, _, acc => acc
  | fuel+1, n, acc =>
    if n < 10 then digitChar n :: acc
    else natDigitsGo fuel (n / 10) (digitChar (n % 10) :: acc)

/-- Decimal digits of a natural number, most significant first. -/
def natDigits (n : Nat) : List Char := natDigitsGo (n + 1) n []

/-- Decimal rendering of an integer, as `JSON.stringify` prints an integral
JavaScript number. -/
def intChars (n : Int) : List Char :=
  if n < 0 then '-' :: natDigits n.natAbs else natDigits n.toNat

/-! ### String escaping (model of `JSON.stringify` for strings) -/

/-- Escape one character as `JSON.stringify` does inside a string literal. -/
def escChar (c : Char) : List Char :=
  if c = '"' then ['\\', '"']
  else if c = '\\' then ['\\', '\\']
  else if c = '\n' then ['\\', 'n']
  else if c = '\r' then ['\\', 'r']
  else if c = '\t' then ['\\', 't']
  else [c]

/-- Escape a whole string body. -/
def escapeChars : List Char → List Char
  | [] => []
  | c :: cs => escChar c ++ escapeChars cs

/-- Decode one escape character following a backslash (`JSON.parse`). -/
def unescChar : Char → Option Char
  | 'n' => some '\n'
  | 'r' => some '\x0d'
  | 't' => some '\x09'
  | '/' => some '/'
  | e => if e = '"' ∨ e = '\\' then some e else none

/-! ### `JSON.stringify`

Model of `JSON.stringify(v)` for the integral JSON fragment: a single line,
no whitespace, members and elements separated by commas. -/

mutual

/-- Serialization of a JSON value, as produced by `JSON.stringify`. -/
def stringifyVal : Json → List Char
  | .num n => intChars n
  | .str s => '"' :: escapeChars s.data ++ ['"']
  | .null => 'n' :: 'u' :: 'l' :: 'l' :: []
  | .bool true => 't' :: 'r' :: 'u' :: 'e' :: []
  | .bool false => 'f' :: 'a' :: ('l' : Char) :: 's' :: 'e' :: []
  | .arr xs => '[' :: stringifyElems xs ++ [']']
  | .obj kvs => '\x7b' :: stringifyMembers kvs ++ ['\x7d']

/-- Comma-separated serialization of array elements. -/
def stringifyElems : List Json → List Char
  | [] => []
  | [v] => stringifyVal v
  | v :: vs => stringifyVal v ++ ',' :: stringifyElems vs

/-- Comma-separated serialization of object members. -/
def stringifyMembers : List (String × Json) → List Char
  | [] => []
  | [(k, v)] => '"' :: escapeChars k.data ++ '"' :: ':' :: stringifyVal v
  | (k, v) :: kvs =>
    ('"' :: escapeChars k.data ++ '"' :: ':' :: stringifyVal v) ++ ',' :: stringifyMembers kvs

end

/-! ### Fuel accounting for the parser -/

mutual

/-- Parser fuel needed for a value. -/
def sizeV : Json → Nat
  | .arr xs => 1 + sizeL xs
  | .obj kvs => 1 + sizeM kvs
  | _ => 1

/-- Parser fuel needed for array elements. -/
def sizeL : List Json → Nat
  | v :: vs => 1 + sizeV v + sizeL vs
  | [] => 1

/-- Parser fuel needed for object members. -/
def sizeM : List (String × Json) → Nat
  | kv :: kvs => 1 + sizeV kv.2 + sizeM kvs
  | [] => 1

end

/-! ### `JSON.parse`

Model of `JSON.parse` on the whitespace-free grammar produced by
`JSON.stringify`.  All parsers take the remaining characters and return the
parsed result together with the unconsumed remainder. -/

/-- Decimal digit test (character code between 48 and 57). -/
def isDigitC (c : Char) : Bool := 48 ≤ c.toNat && c.toNat ≤ 57

/-- Parse a string body up to (and consuming) the closing quote. -/
def parseStringBody : List Char → Option (List Char × List Char)
  | [] => none
  | c :: rest =>
    if c = '"' then some ([], rest)
    else if c = '\\' then
      match rest with
      | [] => none
      | e :: rest2 =>
        match unescChar e, parseStringBody rest2 with
        | some d, some (s, r) => some (d :: s, r)
        | _, _ => none
    else
      match parseStringBody rest with
      | some (s, r) => some (c :: s, r)
      | none => none

/-- Consume a maximal run of decimal digits, folding them into a number. -/
def parseDigitsGo : List Char → Nat → Nat × List Char
  | [], acc => (acc, [])
  | c :: cs, acc =>
    if isDigitC c then parseDigitsGo cs (10 * acc + (c.toNat - 48)) else (acc, c :: cs)

/-- Parse a nonempty run of decimal digits. -/
def parseDigits (cs : List Char) : Option (Nat × List Char) :=
  match cs with
  | [] => none
  | c :: _ => if isDigitC c then some (parseDigitsGo cs 0) else none

/-- Parse an integer literal (optional minus sign followed by digits). -/
def parseNum (cs : List Char) : Option (Json × List Char) :=
  match cs with
  | [] => none
  | c :: cs1 =>
    if c = '-' then
      match parseDigits cs1 with
      | some (n, rest) => some (.num (-(n : Int)), rest)
      | none => none
    else
      match parseDigits cs with
      | some (n, rest) => some (.num ((n : Int)), rest)
      | none => none

mutual

/-- Fuelled parser for one JSON value. -/
def parseVal : Nat → List Char → Option (Json × List Char)
  | 0, _ => none
  | fuel+1, cs =>
    match cs with
    | [] => none
    | c :: cs1 =>
      if c = 'n' then
        match cs1 with
        | 'u' :: 'l' :: 'l' :: rest => some (.null, rest)
        | _ => none
      else if c = 't' then
        match cs1 with
        | 'r' :: 'u' :: 'e' :: rest => some (.bool true, rest)
        | _ => none
      else if c = 'f' then
        match cs1 with
        | 'a' :: 'l' :: 's' :: 'e' :: rest => some (.bool false, rest)
        | _ => none
      else if c = '"' then
        match parseStringBody cs1 with
        | some (s, rest) => some (.str ⟨s⟩, rest)
        | none => none
      else if c = '[' then
        match parseElems fuel cs1 with
        | some (xs, rest) => some (.arr xs, rest)
        | none => none
      else if c = '\x7b' then
        match parseMembers fuel cs1 with
        | some (kvs, rest) => some (.obj kvs, rest)
        | none => none
      else parseNum (c :: cs1)

/-- Fuelled parser for the inside of an array (after the `[`). -/
def parseElems : Nat → List Char → Option (List Json × List Char)
  | 0, _ => none
  | fuel+1, cs =>
    match cs with
    | [] => none
    | c :: cs1 =>
      if c = ']' then some ([], cs1)
      else
        match parseVal fuel (c :: cs1) with
        | none => none
        | some (v, rest) =>
          match rest with
          | [] => none
          | r :: rest2 =>
            if r = ',' then
              match parseElems fuel rest2 with
              | some (vs, rr) => some (v :: vs, rr)
              | none => none
            else if r = ']' then some ([v], rest2)
            else none

/-- Fuelled parser for the inside of an object (after the `{`, written
`\x7b` in this file). -/
def parseMembers : Nat → List Char → Option (List (String × Json) × List Char)
  | 0, _ => none
  | fuel+1, cs =>
    match cs with
    | [] => none
    | c :: cs1 =>
      if c = '\x7d' then some ([], cs1)
      else if c = '"' then
        match parseStringBody cs1 with
        | none => none
        | some (k, rest) =>
          match rest with
          | [] => none
          | r :: rest2 =>
            if r = ':' then
              match parseVal fuel rest2 with
              | none => none
              | some (v, rest3) =>
                match rest3 with
                | [] => none
                | r2 :: rest4 =>
                  if r2 = ',' then
                    match parseMembers fuel rest4 with
                    | some (kvs, rr) => some ((⟨k⟩, v) :: kvs, rr)
                    | none => none
                  else if r2 = '\x7d' then some ([(⟨k⟩, v)], rest4)
                  else none
            else none
      else none

end

/-- `JSON.parse` on a complete input: the whole input must be one value. -/
def parseJsonChars (cs : List Char) : Option Json :=
  match parseVal (2 * cs.length + 2) cs with
  | some (v, []) => some v
  | _ => none

/-! ### The newline-delimited message codec of `src/ipc.ts` -/

/-- `writeMessage` (src/ipc.ts:181-183): the bytes written for one message —
`JSON.stringify(msg) + '\n'`. -/
def writeMessageBytes (msg : Json) : List Char := stringifyVal msg ++ ['\n']

/-- The byte stream produced by writing a sequence of messages with
`writeMessage`, in order, on one connection. -/
def encodeStream (msgs : List Json) : List Char := (msgs.map writeMessageBytes).flatten

/-- The `split` stream transform used by `readMessages`: split the byte
stream on `'\n'`.  `"a\nb"` becomes `["a", "b"]`; a trailing newline yields a
trailing empty line. -/
def splitLines : List Char → List (List Char)
  | [] => [[]]
  | c :: cs =>
    if c = '\n' then [] :: splitLines cs
    else
      match splitLines cs with
      | [] => [[c]]
      | l :: ls => (c :: l) :: ls

/-- `readMessages` (src/ipc.ts:189-195): split the received bytes into lines,
discard empty lines (`if (data)`), and `JSON.parse` each remaining line.
The resulting list is the sequence of arguments passed to the handler
(`none` standing for a line on which `JSON.parse` throws). -/
def readMessagesModel (bytes : List Char) : List (Option Json) :=
  ((splitLines bytes).filter (fun l => !l.isEmpty)).map parseJsonChars

/-- `true` iff the list does not start with a decimal digit (used to state
that a maximal-munch number parse stops exactly at a serialized boundary). -/
def headNotDigit (cs : List Char) : Bool :=
  match cs with
  | c :: _ => !(isDigitC c)
  | [] => true

/-! ### `src/ipc.ts`: the connector (`createConnection` and `retry`)

A JS `Error` value is modelled by how the code creates it: either a system
error carrying a `code` (e.g. the `ECONNREFUSED` emitted on the socket's
`error` event) or `new Error(message)`. -/

/-- A JavaScript `Error` as this library creates and observes them. -/
inductive JsError where
  | sysError (code : String)
  | error (message : String)
deriving DecidableEq

/-- The slice of `net.Socket` state the connector observes: whether the
socket was destroyed by the time the grace-window delay elapsed. -/
structure Socket where
  destroyed : Bool
deriving DecidableEq

/-- The first terminal event of one bare connection attempt: either the
`connect` event or the `error` event fires first (src/ipc.ts:97-100). -/
inductive ConnectEvent where
  | connected
  | errored (e : JsError)

/-- One bare connection attempt, i.e. the `timeout == 0` branch of
`createConnection` (src/ipc.ts:66-102).  `destroyedAfterDelay` is the value
of `socket.destroyed` sampled when the `rejectClosedSocket` delay elapses.
On `error` the promise is rejected with the socket's error; on `connect`
with a positive grace window the attempt rejects with
`new Error('IPC client socket was closed immediately')` if the socket was
destroyed during the window, and otherwise resolves with the socket. -/
def bareConnectModel (rejectClosedSocket : Nat) (ev : ConnectEvent)
    (destroyedAfterDelay : Bool) : Except JsError Socket :=
  match ev with
  | .errored e => .error e
  | .connected =>
    if 0 < rejectClosedSocket then
      if destroyedAfterDelay then
        .error (.error "IPC client socket was closed immediately")
      else .ok { destroyed := destroyedAfterDelay }
    else .ok { destroyed := false }

/-- The `retry` loop (src/ipc.ts:229-253) run against a script of attempt
outcomes.  Each script entry is the wall-clock time `Date.now()` at which
that attempt settled, paired with its outcome.  A successful attempt
resolves the loop; a failed attempt re-throws its error as-is when the
deadline has passed (`Date.now() >= endTime`), and otherwise sleeps and
retries.  `none` means the script ran out before the loop settled. -/
def retryModel (endTime : Nat) :
    List (Nat × Except JsError Socket) → Option (Except JsError Socket)
  | [] => none
  | (t, r) :: rest =>
    match r with
    | .ok s => some (.ok s)
    | .error e => if endTime ≤ t then some (.error e) else retryModel endTime rest

/-- `createConnection` (src/ipc.ts:56-63): with `timeout > 0` it runs the
`retry` loop over bare attempts (each inner call forces `timeout: 0`); with
`timeout == 0` it is a single bare attempt.  `script` lists, for each
attempt the event loop performs, its settle time, its first terminal event
and the sampled destroyed flag. -/
def createConnectionModel (timeout rejectClosedSocket now : Nat)
    (script : List (Nat × ConnectEvent × Bool)) : Option (Except JsError Socket) :=
  if 0 < timeout then
    retryModel (now + timeout)
      (script.map fun e => (e.1, bareConnectModel rejectClosedSocket e.2.1 e.2.2))
  else
    match script with
    | [] => none
    | e :: _ => some (bareConnectModel rejectClosedSocket e.2.1 e.2.2)

/-! ### `src/ipc.ts`: the acceptor (`receiveConnection`) -/

/-- The state of a settled or pending JS promise. -/
inductive PromiseResult (α : Type) where
  | pending
  | resolved (a : α)
  | rejected (e : JsError)
deriving DecidableEq

/-- `resolve(a)`: settles the promise only if it is still pending. -/
def PromiseResult.resolveP : PromiseResult α → α → PromiseResult α
  | .pending, a => .resolved a
  | p, _ => p

/-- `reject(e)`: settles the promise only if it is still pending. -/
def PromiseResult.rejectP : PromiseResult α → JsError → PromiseResult α
  | .pending, e => .rejected e
  | p, _ => p

/-- An event delivered to `receiveConnection`'s executor after the listening
socket is (or fails to be) set up: an incoming connection (identified by a
socket id) or the firing of the `setTimeout` timer. -/
inductive AcceptEvent where
  | connection (sock : Nat)
  | timerFire

/-- The observable state of one `receiveConnection` call
(src/ipc.ts:133-175). `serverBound` records whether
`await createServerAndListen(...)` completed, i.e. whether the `server`
binding was initialized; `endedSockets` records the ids of accepted sockets
this call has ended (the function never ends any). -/
structure AcceptState where
  promise : PromiseResult Nat
  serverClosed : Bool
  timerActive : Bool
  connListenerAttached : Bool
  serverBound : Bool
  uncaught : Bool
  endedSockets : List Nat
deriving DecidableEq

/-- One event step of `receiveConnection`.

On `connection` (src/ipc.ts:135-155): if the server is closed or the
listener was removed nothing is delivered; otherwise `onConnection` closes
the server, clears the timer and resolves the promise with the socket — and
does not end the socket.

On the timer firing (src/ipc.ts:157-165): if the timer was cleared nothing
happens.  Otherwise `onTimeout` runs; its first statement reads the
`server` binding, so if `await createServerAndListen` threw, the binding
was never initialized and the callback raises a `ReferenceError` before
reaching `reject(...)` (an uncaught exception: `uncaught := true`). With
the server bound it removes the connection listener, closes the server and
rejects with `new Error('IPC server timed out before receiving a client
connection')`. -/
def acceptStep (st : AcceptState) (ev : AcceptEvent) : AcceptState :=
  match ev with
  | .connection s =>
    if st.serverClosed || !st.connListenerAttached then st
    else { st with
      serverClosed := true
      timerActive := false
      promise := st.promise.resolveP s }
  | .timerFire =>
    if st.timerActive then
      if st.serverBound then
        { st with
          connListenerAttached := false
          serverClosed := true
          timerActive := false
          promise := st.promise.rejectP
            (.error "IPC server timed out before receiving a client connection") }
      else { st with timerActive := false, uncaught := true }
    else st

/-- The executor state right after `receiveConnection` starts: the timer is
started before the listen (src/ipc.ts:167-170), then
`await createServerAndListen(port, host, log)` either initializes `server`
and attaches the `connection` listener (src/ipc.ts:172-174), or throws
inside the `async` executor.  The `Promise` constructor ignores the
executor's own rejected promise, so a listen failure settles nothing. -/
def acceptInit (timeout : Nat) (listenResult : Except JsError Unit) : AcceptState :=
  { promise := .pending
    serverClosed := false
    timerActive := 0 < timeout
    connListenerAttached := listenResult.isOk
    serverBound := listenResult.isOk
    uncaught := false
    endedSockets := [] }

/-- A whole `receiveConnection(port, opts)` call: initial setup followed by
the event script. -/
def receiveConnectionModel (timeout : Nat) (listenResult : Except JsError Unit)
    (events : List AcceptEvent) : AcceptState :=
  events.foldl acceptStep (acceptInit timeout listenResult)

/-- The first `connection` event of a script, if any. -/
def firstConnection : List AcceptEvent → Option Nat
  | [] => none
  | .connection s :: _ => some s
  | .timerFire :: rest => firstConnection rest

/-! ### The worker proxy (`createWorkerProxy` and its `dispose` handle) -/

/-- The state a `createWorkerProxy` handle closes over: the remote socket,
the optional accepted local socket, and the local listening server. -/
structure ProxyHandleState where
  remoteEnded : Bool
  localSocket : Option Nat
  localEnded : Bool
  proxyListening : Bool
deriving DecidableEq

/-- `net.Server.close()`: succeeds (the server stops listening) when it is
listening, and throws `ERR_SERVER_NOT_RUNNING` when it is not. -/
def serverCloseModel (listening : Bool) : Except JsError Bool :=
  if listening then .ok false else .error (.sysError "ERR_SERVER_NOT_RUNNING")

/-- `dispose()` of the proxy handle (worker-proxy source, lines 43-52):
`remoteSocket.end()`; then if a local connection was accepted,
`localSocket.end()`, and otherwise `proxy.close()` guarded by
`proxy.listening`.  `socket.end()` never throws and is idempotent. -/
def disposeModel (st : ProxyHandleState) : Except JsError ProxyHandleState :=
  let st1 := { st with remoteEnded := true }
  match st1.localSocket with
  | some _ => .ok { st1 with localEnded := true }
  | none =>
    if st1.proxyListening then
      match serverCloseModel st1.proxyListening with
      | .ok l => .ok { st1 with proxyListening := l }
      | .error e => .error e
    else .ok st1

/-- The side-effecting calls of `createWorkerProxy`'s setup phase, in order. -/
inductive ProxySetupAction where
  | remoteEnd
  | throwErr (e : JsError)
  | returnHandle
deriving DecidableEq

/-- The setup phase of `createWorkerProxy` (worker-proxy source, lines
4-21): first `await createClientConnection(remoteHost, remotePort)`; if
that fails the failure propagates.  Then `await createServerAndListen
(localPort)` inside `try`; on failure the `catch` runs `remoteSocket.end()`
and re-throws the error. -/
def createWorkerProxySetupTrace (remoteRes listenRes : Except JsError Unit) :
    List ProxySetupAction :=
  match remoteRes with
  | .error e => [.throwErr e]
  | .ok _ =>
    match listenRes with
    | .error e => [.remoteEnd, .throwErr e]
    | .ok _ => [.returnHandle]

/-- The per-line forwarding handler of `createWorkerProxy` (worker-proxy
source, lines 31-33): for each line `data` produced by `split2()`, it
writes `JSON.stringify(transform(JSON.parse(data)))` onto the remote
socket — with no newline appended.  `none` models `JSON.parse` throwing. -/
def bridgeForwardLine (transform : Json → Json) (data : List Char) : Option (List Char) :=
  (parseJsonChars data).map fun m => stringifyVal (transform m)

/-- The bytes `createWorkerProxy` writes onto the remote connection for a
sequence of decoded local lines. -/
def bridgeForwardBytes (transform : Json → Json) :
    List (List Char) → Option (List Char)
  | [] => some []
  | l :: ls =>
    match bridgeForwardLine transform l, bridgeForwardBytes transform ls with
    | some out, some rest => some (out ++ rest)
    | _, _ => none

/-! ### `src/convert.ts`: path mappings -/

/-- JavaScript `String.prototype.startsWith` (for the BMP strings handled
here, character-wise comparison). -/
def strStartsWith (s pre : String) : Bool := pre.data.isPrefixOf s.data

/-- JavaScript `String.prototype.substr(n)`: the characters from index `n`
on. -/
def strDrop (s : String) (n : Nat) : String := ⟨s.data.drop n⟩

/-- JavaScript `String.prototype.length` (code units; for the BMP strings
handled here, the character count). -/
def strLength (s : String) : Nat := s.data.length

/-- A `PathMapping` (src/convert.ts:38-41).  The source fields are named
`local` and `remote`; `local` is a Lean keyword, so the fields are `loc`
and `rem` here. -/
structure PathMapping where
  loc : String
  rem : String
deriving DecidableEq

/-- The loop body of the converter returned by `localPathConverter`
(src/convert.ts:43-54): scan the mappings in order; on the first mapping
whose `local` string is a prefix of the path, replace that prefix by the
mapping's `remote` string (`mapping.remote + path.substr(mapping.local
.length)`); if no mapping matches, return the path unchanged. -/
def localPathConverterGo : List PathMapping → String → String
  | [], path => path
  | m :: rest, path =>
    if strStartsWith path m.loc then m.rem ++ strDrop path (strLength m.loc)
    else localPathConverterGo rest path

/-- `localPathConverter(mappings)` (src/convert.ts:43-54). -/
def localPathConverter (mappings : List PathMapping) : String → String :=
  fun path => localPathConverterGo mappings path

/-- `convertPath(path, srcPrefix, dstPrefix)` from the second unnamed
source file (lines 3-9); parameters renamed `srcPre`/`dstPre`. -/
def convertPath (path srcPre dstPre : String) : String :=
  if strStartsWith path srcPre then dstPre ++ strDrop path (strLength srcPre) else path

/-! ### `src/mocha.ts`: `convertWorkerArgs` -/

/-- The `action` field of `WorkerArgs`. -/
inductive WorkerAction where
  | loadTests
  | runTests
deriving DecidableEq

/-- `MochaOpts` (src/mocha.ts:52-58). -/
structure MochaOpts where
  ui : String
  timeout : Nat
  retries : Nat
  requires : List String
  exit : Bool
deriving DecidableEq

/-- `WorkerArgs` (src/mocha.ts:11-47).  Optional fields are `Option`s; an
`env` entry with value `none` models a `null` environment variable. -/
structure WorkerArgs where
  action : WorkerAction
  cwd : String
  testFiles : List String
  tests : Option (List String)
  env : List (String × Option String)
  mochaPath : Option String
  mochaOpts : MochaOpts
  monkeyPatch : Option Bool
  logEnabled : Bool
  workerScript : Option String
  debuggerPort : Option Nat
deriving DecidableEq

/-- `convertWorkerArgs(workerArgs, convertPath)` (src/mocha.ts:92-99): a
spread copy of `workerArgs` with `cwd` converted, `testFiles` mapped, and
`mochaPath` set by the ternary `workerArgs.mochaPath ?
convertPath(workerArgs.mochaPath) : undefined` — a JS truthiness test, so
both `undefined` and the empty string `""` take the `undefined` branch. -/
def convertWorkerArgs (workerArgs : WorkerArgs) (convert : String → String) : WorkerArgs :=
  { workerArgs with
    cwd := convert workerArgs.cwd
    testFiles := workerArgs.testFiles.map convert
    mochaPath :=
      match workerArgs.mochaPath with
      | some s => if s = "" then none else some (convert s)
      | none => none }

/-- A sample `WorkerArgs` value whose `mochaPath` is the empty string, used
as a concrete input to `convertWorkerArgs`. -/
def sampleWorkerArgs : WorkerArgs :=
  { action := .loadTests
    cwd := "/c"
    testFiles := ["/t1", "/t2"]
    tests := none
    env := []
    mochaPath := some ""
    mochaOpts := { ui := "bdd", timeout := 0, retries := 0, requires := [], exit := false }
    monkeyPatch := none
    logEnabled := false
    workerScript := none
    debuggerPort := none }

/-! ## Proofs

### Decimal digits -/

theorem digitChar_isDigit (d : Nat) : isDigitC (digitChar d) = true := by
  unfold digitChar
  split <;> rfl

theorem digitChar_val (d : Nat) (h : d < 10) : (digitChar d).toNat - 48 = d := by
  interval_cases d <;> rfl

theorem isDigitC_bounds {c : Char} (h : isDigitC c = true) :
    48 ≤ c.toNat ∧ c.toNat ≤ 57 := by
  simpa [isDigitC] using h

theorem natDigitsGo_append (fuel : Nat) : ∀ (n : Nat) (acc : List Char),
    natDigitsGo fuel n acc = natDigitsGo fuel n [] ++ acc := by
  induction fuel with
  | zero => intro n acc; rfl
  | succ f ih =>
    intro n acc
    simp only [natDigitsGo]
    split
    · rfl
    · rw [ih (n / 10) (digitChar (n % 10) :: acc), ih (n / 10) [digitChar (n % 10)]]
      simp

theorem natDigitsGo_all_digits (fuel : Nat) : ∀ (n : Nat) (c : Char),
    c ∈ natDigitsGo fuel n [] → isDigitC c = true := by
  induction fuel with
  | zero => intro n c h; simp [natDigitsGo] at h
  | succ f ih =>
    intro n c h
    simp only [natDigitsGo] at h
    split at h
    · simp only [List.mem_singleton] at h
      exact h ▸ digitChar_isDigit n
    · rw [natDigitsGo_append] at h
      rcases List.mem_append.mp h with h1 | h1
      · exact ih (n / 10) c h1
      · simp only [List.mem_singleton] at h1
        exact h1 ▸ digitChar_isDigit (n % 10)

theorem natDigitsGo_ne_nil (fuel : Nat) : ∀ n : Nat, n < fuel →
    natDigitsGo fuel n [] ≠ [] := by
  induction fuel with
  | zero => intro n h; omega
  | succ f ih =>
    intro n h
    simp only [natDigitsGo]
    split
    · simp
    · rw [natDigitsGo_append]
      simp

theorem natDigitsGo_fold (fuel : Nat) : ∀ n : Nat, n < fuel →
    (natDigitsGo fuel n []).foldl (fun a c => 10 * a + (c.toNat - 48)) 0 = n := by
  induction fuel with
  | zero => intro n h; omega
  | succ f ih =>
    intro n h
    simp only [natDigitsGo]
    split
    · next hlt => simp [digitChar_val n hlt]
    · next hge =>
      rw [natDigitsGo_append, List.foldl_append]
      rw [ih (n / 10) (by omega)]
      simp only [List.foldl_cons, List.foldl_nil]
      rw [digitChar_val (n % 10) (by omega)]
      omega

theorem natDigits_all_digits (n : Nat) (c : Char) (h : c ∈ natDigits n) :
    isDigitC c = true :=
  natDigitsGo_all_digits (n + 1) n c h

theorem natDigits_ne_nil (n : Nat) : natDigits n ≠ [] :=
  natDigitsGo_ne_nil (n + 1) n (by omega)

theorem natDigits_fold (n : Nat) :
    (natDigits n).foldl (fun a c => 10 * a + (c.toNat - 48)) 0 = n :=
  natDigitsGo_fold (n + 1) n (by omega)

theorem parseDigitsGo_spec : ∀ (ds rest : List Char) (acc : Nat),
    (∀ c ∈ ds, isDigitC c = true) → headNotDigit rest = true →
    parseDigitsGo (ds ++ rest) acc =
      (ds.foldl (fun a c => 10 * a + (c.toNat - 48)) acc, rest) := by
  intro ds
  induction ds with
  | nil =>
    intro rest acc _ hrest
    match rest with
    | [] => rfl
    | c :: rs =>
      simp only [headNotDigit, Bool.not_eq_true'] at hrest
      simp [parseDigitsGo, hrest]
  | cons d ds ih =>
    intro rest acc hds hrest
    have hd : isDigitC d = true := hds d (List.mem_cons_self d ds)
    simp only [List.cons_append, parseDigitsGo, hd, if_true, List.foldl_cons]
    exact ih rest _ (fun c hc => hds c (List.mem_cons_of_mem d hc)) hrest

theorem parseDigits_natDigits (n : Nat) (rest : List Char)
    (hrest : headNotDigit rest = true) :
    parseDigits (natDigits n ++ rest) = some (n, rest) := by
  obtain ⟨d, ds, hds⟩ : ∃ d ds, natDigits n = d :: ds := by
    match h : natDigits n with
    | [] => exact absurd h (natDigits_ne_nil n)
    | d :: ds => exact ⟨d, ds, rfl⟩
  have hd : isDigitC d = true := natDigits_all_digits n d (by rw [hds]; simp)
  rw [hds, List.cons_append]
  simp only [parseDigits, hd, if_true]
  rw [← List.cons_append, ← hds,
    parseDigitsGo_spec (natDigits n) rest 0 (natDigits_all_digits n) hrest,
    natDigits_fold]

theorem isDigitC_ne_of_gt {c x : Char} (h : isDigitC c = true)
    (hx : 57 < x.toNat) : c ≠ x := by
  intro he
  obtain ⟨_, h2⟩ := isDigitC_bounds h
  rw [he] at h2
  omega

theorem isDigitC_ne_of_lt {c x : Char} (h : isDigitC c = true)
    (hx : x.toNat < 48) : c ≠ x := by
  intro he
  obtain ⟨h1, _⟩ := isDigitC_bounds h
  rw [he] at h1
  omega

theorem parseNum_intChars (n : Int) (rest : List Char)
    (hrest : headNotDigit rest = true) :
    parseNum (intChars n ++ rest) = some (.num n, rest) := by
  by_cases hn : n < 0
  · have h1 := parseDigits_natDigits n.natAbs rest hrest
    have he : (-(n.natAbs : Int)) = n := by omega
    simp [intChars, if_pos hn, parseNum, h1, he]
    rw [abs_of_neg hn, neg_neg]
  · simp only [intChars, if_neg hn]
    obtain ⟨d, ds, hds⟩ : ∃ d ds, natDigits n.toNat = d :: ds := by
      match h : natDigits n.toNat with
      | [] => exact absurd h (natDigits_ne_nil n.toNat)
      | d :: ds => exact ⟨d, ds, rfl⟩
    have hd : isDigitC d = true := natDigits_all_digits n.toNat d (by rw [hds]; simp)
    have hne : d ≠ '-' := isDigitC_ne_of_lt hd (by decide)
    rw [hds, List.cons_append]
    have h1 : parseDigits (d :: (ds ++ rest)) = some (n.toNat, rest) := by
      rw [← List.cons_append, ← hds]
      exact parseDigits_natDigits n.toNat rest hrest
    have he : ((n.toNat : Nat) : Int) = n := by omega
    simp [parseNum, if_neg hne, h1, he]

/-! ### String escaping round-trip -/

theorem parseStringBody_escape : ∀ (l rest : List Char),
    parseStringBody (escapeChars l ++ '"' :: rest) = some (l, rest) := by
  intro l
  induction l with
  | nil =>
    intro rest
    simp only [escapeChars, List.nil_append]
    rw [parseStringBody.eq_def]
    simp
  | cons c l ih =>
    intro rest
    simp only [escapeChars, List.append_assoc]
    unfold escChar
    split_ifs with hq hb hn hr ht
    · subst hq
      rw [List.cons_append, List.cons_append, parseStringBody.eq_def]
      simp [unescChar, ih]
    · subst hb
      rw [List.cons_append, List.cons_append, parseStringBody.eq_def]
      simp [unescChar, ih]
    · subst hn
      rw [List.cons_append, List.cons_append, parseStringBody.eq_def]
      simp [unescChar, ih]
    · subst hr
      rw [List.cons_append, List.cons_append, parseStringBody.eq_def]
      simp [unescChar, ih]
    · subst ht
      rw [List.cons_append, List.cons_append, parseStringBody.eq_def]
      simp [unescChar, ih]
    · rw [List.singleton_append, parseStringBody.eq_def]
      simp [hq, hb, ih]

theorem nl_not_mem_escChar (c : Char) : '\n' ∉ escChar c := by
  unfold escChar
  split_ifs with hq hb hn hr ht
  · decide
  · decide
  · decide
  · decide
  · decide
  · simp only [List.mem_singleton]
    intro h
    exact hn h.symm

theorem nl_not_mem_escapeChars (l : List Char) : '\n' ∉ escapeChars l := by
  induction l with
  | nil => simp [escapeChars]
  | cons c l ih =>
    simp only [escapeChars]
    intro h
    rcases List.mem_append.mp h with h1 | h1
    · exact nl_not_mem_escChar c h1
    · exact ih h1

theorem nl_not_mem_natDigits (n : Nat) : '\n' ∉ natDigits n := by
  intro h
  have hd := natDigits_all_digits n '\n' h
  exact absurd hd (by decide)

theorem nl_not_mem_intChars (n : Int) : '\n' ∉ intChars n := by
  unfold intChars
  split
  · intro h
    rcases List.mem_cons.mp h with h1 | h1
    · exact absurd h1 (by decide)
    · exact nl_not_mem_natDigits _ h1
  · exact nl_not_mem_natDigits _

/-! ### No newline occurs in a serialized value -/

mutual

theorem nl_not_mem_stringifyVal : ∀ v : Json, '\n' ∉ stringifyVal v := by
  intro v
  cases v with
  | null => decide
  | bool b => cases b <;> decide
  | num n => exact nl_not_mem_intChars n
  | str s =>
    simp only [stringifyVal]
    intro h
    rcases List.mem_cons.mp h with h1 | h1
    · exact absurd h1 (by decide)
    · rcases List.mem_append.mp h1 with h2 | h2
      · exact nl_not_mem_escapeChars _ h2
      · exact absurd h2 (by decide)
  | arr xs =>
    have hx := nl_not_mem_stringifyElems xs
    simp only [stringifyVal]
    intro h
    rcases List.mem_cons.mp h with h1 | h1
    · exact absurd h1 (by decide)
    · rcases List.mem_append.mp h1 with h2 | h2
      · exact hx h2
      · exact absurd h2 (by decide)
  | obj kvs =>
    have hk := nl_not_mem_stringifyMembers kvs
    simp only [stringifyVal]
    intro h
    rcases List.mem_cons.mp h with h1 | h1
    · exact absurd h1 (by decide)
    · rcases List.mem_append.mp h1 with h2 | h2
      · exact hk h2
      · exact absurd h2 (by decide)

theorem nl_not_mem_stringifyElems : ∀ xs : List Json, '\n' ∉ stringifyElems xs := by
  intro xs
  match xs with
  | [] => simp [stringifyElems]
  | [v] =>
    simp only [stringifyElems]
    exact nl_not_mem_stringifyVal v
  | v :: w :: ws =>
    have h1 := nl_not_mem_stringifyVal v
    have h2 := nl_not_mem_stringifyElems (w :: ws)
    simp only [stringifyElems]
    intro h
    rcases List.mem_append.mp h with h3 | h3
    · exact h1 h3
    · rcases List.mem_cons.mp h3 with h4 | h4
      · exact absurd h4 (by decide)
      · exact h2 h4

theorem nl_not_mem_stringifyMembers :
    ∀ kvs : List (String × Json), '\n' ∉ stringifyMembers kvs := by
  intro kvs
  match kvs with
  | [] => simp [stringifyMembers]
  | [(k, v)] =>
    have h1 := nl_not_mem_stringifyVal v
    simp only [stringifyMembers]
    intro h
    rcases List.mem_cons.mp h with h2 | h2
    · exact absurd h2 (by decide)
    · rcases List.mem_append.mp h2 with h3 | h3
      · exact nl_not_mem_escapeChars _ h3
      · rcases List.mem_cons.mp h3 with h4 | h4
        · exact absurd h4 (by decide)
        · rcases List.mem_cons.mp h4 with h5 | h5
          · exact absurd h5 (by decide)
          · exact h1 h5
  | (k, v) :: (k2, v2) :: kvs =>
    have h1 := nl_not_mem_stringifyVal v
    have h2 := nl_not_mem_stringifyMembers ((k2, v2) :: kvs)
    simp only [stringifyMembers]
    intro h
    rcases List.mem_append.mp h with h3 | h3
    · rcases List.mem_cons.mp h3 with h4 | h4
      · exact absurd h4 (by decide)
      · rcases List.mem_append.mp h4 with h5 | h5
        · exact nl_not_mem_escapeChars _ h5
        · rcases List.mem_cons.mp h5 with h6 | h6
          · exact absurd h6 (by decide)
          · rcases List.mem_cons.mp h6 with h7 | h7
            · exact absurd h7 (by decide)
            · exact h1 h7
    · rcases List.mem_cons.mp h3 with h4 | h4
      · exact absurd h4 (by decide)
      · exact h2 h4

end

/-! ### Heads of serialized values and fuel bounds -/

theorem sizeV_pos (v : Json) : 1 ≤ sizeV v := by
  cases v <;> simp [sizeV]

theorem sizeL_pos (xs : List Json) : 1 ≤ sizeL xs := by
  cases xs <;> simp only [sizeL] <;> omega

theorem sizeM_pos (kvs : List (String × Json)) : 1 ≤ sizeM kvs := by
  match kvs with
  | [] => simp [sizeM]
  | (k, v) :: kvs => simp [sizeM]; omega

theorem intChars_head (n : Int) :
    ∃ c cs, intChars n = c :: cs ∧ (c = '-' ∨ isDigitC c = true) := by
  unfold intChars
  split
  · exact ⟨'-', natDigits n.natAbs, rfl, Or.inl rfl⟩
  · obtain ⟨d, ds, hds⟩ : ∃ d ds, natDigits n.toNat = d :: ds := by
      match h : natDigits n.toNat with
      | [] => exact absurd h (natDigits_ne_nil n.toNat)
      | d :: ds => exact ⟨d, ds, rfl⟩
    exact ⟨d, ds, hds, Or.inr (natDigits_all_digits n.toNat d (by rw [hds]; simp))⟩

theorem stringifyVal_head (v : Json) :
    ∃ c cs, stringifyVal v = c :: cs ∧ c ≠ ']' := by
  cases v with
  | null => exact ⟨'n', _, rfl, by decide⟩
  | bool b =>
    cases b
    · exact ⟨'f', _, rfl, by decide⟩
    · exact ⟨'t', _, rfl, by decide⟩
  | num n =>
    obtain ⟨c, cs, hc, hor⟩ := intChars_head n
    refine ⟨c, cs, by simp [stringifyVal, hc], ?_⟩
    rcases hor with rfl | hd
    · decide
    · exact isDigitC_ne_of_gt hd (by decide)
  | str s => exact ⟨'"', _, rfl, by decide⟩
  | arr xs =>
    exact ⟨'[', stringifyElems xs ++ [']'], by simp [stringifyVal], by decide⟩
  | obj kvs =>
    exact ⟨'\x7b', stringifyMembers kvs ++ ['\x7d'], by simp [stringifyVal], by decide⟩

theorem intChars_ne_nil (n : Int) : intChars n ≠ [] := by
  obtain ⟨c, cs, hc, _⟩ := intChars_head n
  simp [hc]

mutual

theorem sizeV_le (v : Json) : sizeV v ≤ 2 * (stringifyVal v).length := by
  cases v with
  | null => decide
  | bool b => cases b <;> decide
  | num n =>
    have h : 1 ≤ (intChars n).length := by
      have := intChars_ne_nil n
      cases h : intChars n with
      | nil => exact absurd h this
      | cons c cs => simp
    simp only [stringifyVal, sizeV]
    omega
  | str s =>
    simp only [stringifyVal, sizeV, List.length_cons, List.length_append]
    omega
  | arr xs =>
    have h := sizeL_le xs
    simp only [stringifyVal, sizeV, List.length_cons, List.length_append]
    omega
  | obj kvs =>
    have h := sizeM_le kvs
    simp only [stringifyVal, sizeV, List.length_cons, List.length_append]
    omega

theorem sizeL_le (xs : List Json) : sizeL xs ≤ 2 * (stringifyElems xs).length + 3 := by
  match xs with
  | [] => decide
  | [v] =>
    have h := sizeV_le v
    simp only [stringifyElems, sizeL, sizeL.eq_1]
    omega
  | v :: w :: ws =>
    have h1 := sizeV_le v
    have h2 := sizeL_le (w :: ws)
    have h3 : sizeL (w :: ws) = 1 + sizeV w + sizeL ws := by simp [sizeL]
    simp only [stringifyElems, sizeL, List.length_append, List.length_cons]
    omega

theorem sizeM_le (kvs : List (String × Json)) :
    sizeM kvs ≤ 2 * (stringifyMembers kvs).length + 3 := by
  match kvs with
  | [] => decide
  | [(k, v)] =>
    have h := sizeV_le v
    simp only [stringifyMembers, sizeM, sizeM.eq_1, List.length_cons, List.length_append]
    omega
  | (k, v) :: (k2, v2) :: kvs =>
    have h1 := sizeV_le v
    have h2 := sizeM_le ((k2, v2) :: kvs)
    have h3 : sizeM ((k2, v2) :: kvs) = 1 + sizeV v2 + sizeM kvs := by simp [sizeM]
    simp only [stringifyMembers, sizeM, List.length_append, List.length_cons]
    omega

end

/-! ### Parser round-trip: `JSON.parse` inverts `JSON.stringify` -/

theorem headNotDigit_rb (rest : List Char) : headNotDigit (']' :: rest) = true := rfl

theorem headNotDigit_comma (rest : List Char) : headNotDigit (',' :: rest) = true := rfl

theorem headNotDigit_cb (rest : List Char) : headNotDigit ('\x7d' :: rest) = true := rfl

set_option maxRecDepth 16000

mutual

theorem parseVal_rt (v : Json) (fuel : Nat) (rest : List Char)
    (hfuel : sizeV v ≤ fuel) (hrest : headNotDigit rest = true) :
    parseVal fuel (stringifyVal v ++ rest) = some (v, rest) := by
  cases fuel with
  | zero => have := sizeV_pos v; omega
  | succ f =>
    cases v with
    | null => simp [stringifyVal, parseVal]
    | bool b => cases b <;> simp [stringifyVal, parseVal]
    | num n =>
      obtain ⟨c, cs', hc, hor⟩ := intChars_head n
      have h1 : c ≠ 'n' := by
        rcases hor with rfl | hd
        · decide
        · exact isDigitC_ne_of_gt hd (by decide)
      have h2 : c ≠ 't' := by
        rcases hor with rfl | hd
        · decide
        · exact isDigitC_ne_of_gt hd (by decide)
      have h3 : c ≠ 'f' := by
        rcases hor with rfl | hd
        · decide
        · exact isDigitC_ne_of_gt hd (by decide)
      have h4 : c ≠ '"' := by
        rcases hor with rfl | hd
        · decide
        · exact isDigitC_ne_of_lt hd (by decide)
      have h5 : c ≠ '[' := by
        rcases hor with rfl | hd
        · decide
        · exact isDigitC_ne_of_gt hd (by decide)
      have h6 : c ≠ '\x7b' := by
        rcases hor with rfl | hd
        · decide
        · exact isDigitC_ne_of_gt hd (by decide)
      have hp : parseNum (c :: (cs' ++ rest)) = some (Json.num n, rest) := by
        rw [← List.cons_append, ← hc]
        exact parseNum_intChars n rest hrest
      simp only [stringifyVal]
      rw [hc, List.cons_append]
      simp [parseVal, h1, h2, h3, h4, h5, h6, hp]
    | str s =>
      have hp := parseStringBody_escape s.data rest
      simp only [stringifyVal, List.cons_append, List.append_assoc, List.singleton_append]
      simp [parseVal, hp]
    | arr xs =>
      have hsv : sizeV (Json.arr xs) = 1 + sizeL xs := by simp [sizeV]
      have hfe : sizeL xs ≤ f := by omega
      have hp := parseElems_rt xs f rest hfe
      simp only [stringifyVal, List.cons_append, List.append_assoc, List.singleton_append]
      simp [parseVal, hp]
    | obj kvs =>
      have hsv : sizeV (Json.obj kvs) = 1 + sizeM kvs := by simp [sizeV]
      have hfm : sizeM kvs ≤ f := by omega
      have hp := parseMembers_rt kvs f rest hfm
      simp only [stringifyVal, List.cons_append, List.append_assoc, List.singleton_append]
      simp [parseVal, hp]

theorem parseElems_rt (xs : List Json) (fuel : Nat) (rest : List Char)
    (hfuel : sizeL xs ≤ fuel) :
    parseElems fuel (stringifyElems xs ++ ']' :: rest) = some (xs, rest) := by
  cases fuel with
  | zero => have := sizeL_pos xs; omega
  | succ f =>
    match xs with
    | [] =>
      simp only [stringifyElems, List.nil_append]
      simp [parseElems]
    | [v] =>
      obtain ⟨c, cs', hc, hne⟩ := stringifyVal_head v
      have hs1 : sizeL [v] = 1 + sizeV v + 1 := by simp [sizeL]
      have hfv : sizeV v ≤ f := by omega
      have hpv : parseVal f (c :: (cs' ++ (']' :: rest))) = some (v, ']' :: rest) := by
        rw [← List.cons_append, ← hc]
        exact parseVal_rt v f (']' :: rest) hfv (headNotDigit_rb rest)
      simp only [stringifyElems]
      rw [hc, List.cons_append]
      simp [parseElems, hne, hpv]
    | v :: w :: ws =>
      obtain ⟨c, cs', hc, hne⟩ := stringifyVal_head v
      have hs1 : sizeL (v :: w :: ws) = 1 + sizeV v + sizeL (w :: ws) := by
        simp only [sizeL]
      have hposL := sizeL_pos (w :: ws)
      have hposV := sizeV_pos v
      have hfv : sizeV v ≤ f := by omega
      have hfw : sizeL (w :: ws) ≤ f := by omega
      have hpe := parseElems_rt (w :: ws) f rest hfw
      have hpv : parseVal f
          (c :: (cs' ++ (',' :: (stringifyElems (w :: ws) ++ ']' :: rest)))) =
          some (v, ',' :: (stringifyElems (w :: ws) ++ ']' :: rest)) := by
        rw [← List.cons_append, ← hc]
        exact parseVal_rt v f _ hfv (headNotDigit_comma _)
      simp only [stringifyElems, List.append_assoc, List.cons_append]
      rw [hc, List.cons_append]
      simp [parseElems, hne, hpv, hpe]

theorem parseMembers_rt (kvs : List (String × Json)) (fuel : Nat) (rest : List Char)
    (hfuel : sizeM kvs ≤ fuel) :
    parseMembers fuel (stringifyMembers kvs ++ '\x7d' :: rest) = some (kvs, rest) := by
  cases fuel with
  | zero => have := sizeM_pos kvs; omega
  | succ f =>
    match kvs with
    | [] =>
      simp only [stringifyMembers, List.nil_append]
      simp [parseMembers]
    | [(k, v)] =>
      have hs1 : sizeM [(k, v)] = 1 + sizeV v + 1 := by simp [sizeM]
      have hfv : sizeV v ≤ f := by omega
      have hps := parseStringBody_escape k.data (':' :: (stringifyVal v ++ '\x7d' :: rest))
      have hpv : parseVal f (stringifyVal v ++ '\x7d' :: rest) = some (v, '\x7d' :: rest) :=
        parseVal_rt v f ('\x7d' :: rest) hfv (headNotDigit_cb rest)
      simp only [stringifyMembers, List.cons_append, List.append_assoc]
      simp [parseMembers, hps, hpv]
    | (k, v) :: (k2, v2) :: kvs =>
      have hs1 : sizeM ((k, v) :: (k2, v2) :: kvs) =
          1 + sizeV v + sizeM ((k2, v2) :: kvs) := by
        simp only [sizeM]
      have hposM := sizeM_pos ((k2, v2) :: kvs)
      have hposV := sizeV_pos v
      have hfv : sizeV v ≤ f := by omega
      have hfm : sizeM ((k2, v2) :: kvs) ≤ f := by omega
      have hpm := parseMembers_rt ((k2, v2) :: kvs) f rest hfm
      have hps := parseStringBody_escape k.data
        (':' :: (stringifyVal v ++ ',' :: (stringifyMembers ((k2, v2) :: kvs) ++ '\x7d' :: rest)))
      have hpv : parseVal f
          (stringifyVal v ++ ',' :: (stringifyMembers ((k2, v2) :: kvs) ++ '\x7d' :: rest)) =
          some (v, ',' :: (stringifyMembers ((k2, v2) :: kvs) ++ '\x7d' :: rest)) :=
        parseVal_rt v f _ hfv (headNotDigit_comma _)
      simp only [stringifyMembers, List.cons_append, List.append_assoc]
      simp [parseMembers, hps, hpv, hpm]

end

/-! ### Whole-input parsing and the message stream -/

theorem parseJsonChars_stringify (v : Json) :
    parseJsonChars (stringifyVal v) = some v := by
  have h1 := sizeV_le v
  have h2 : sizeV v ≤ 2 * (stringifyVal v).length + 2 := by omega
  have h3 := parseVal_rt v (2 * (stringifyVal v).length + 2) [] h2 rfl
  rw [List.append_nil] at h3
  simp [parseJsonChars, h3]

theorem splitLines_append (a rest : List Char) (h : '\n' ∉ a) :
    splitLines (a ++ '\n' :: rest) = a :: splitLines rest := by
  induction a with
  | nil => simp [splitLines]
  | cons c a ih =>
    have hc : c ≠ '\n' := fun he => h (by rw [he]; exact List.mem_cons_self _ _)
    have ha : '\n' ∉ a := fun hm => h (List.mem_cons_of_mem c hm)
    rw [List.cons_append]
    simp only [splitLines, if_neg hc, ih ha]

theorem stringifyVal_not_isEmpty (v : Json) : (!(stringifyVal v).isEmpty) = true := by
  obtain ⟨c, cs, hc, _⟩ := stringifyVal_head v
  rw [hc]
  rfl

theorem readMessages_encodeStream (msgs : List Json) :
    readMessagesModel (encodeStream msgs) = msgs.map some := by
  induction msgs with
  | nil => rfl
  | cons m ms ih =>
    have hnl := nl_not_mem_stringifyVal m
    have h1 : encodeStream (m :: ms) = stringifyVal m ++ '\n' :: encodeStream ms := by
      simp [encodeStream, writeMessageBytes]
    rw [h1]
    unfold readMessagesModel at ih ⊢
    rw [splitLines_append _ _ hnl]
    simp only [List.filter_cons, stringifyVal_not_isEmpty m, if_true, List.map_cons,
      parseJsonChars_stringify m, ih, List.map_cons]

/-! ### Acceptor state machine lemmas -/

theorem acceptStep_endedSockets (st : AcceptState) (ev : AcceptEvent) :
    (acceptStep st ev).endedSockets = st.endedSockets := by
  cases ev <;> simp only [acceptStep] <;> split_ifs <;> rfl

theorem acceptStep_closed_fixed (st : AcceptState) (ev : AcceptEvent)
    (h1 : st.serverClosed = true) (h2 : st.timerActive = false) :
    acceptStep st ev = st := by
  cases ev with
  | connection s => simp [acceptStep, h1]
  | timerFire => simp [acceptStep, h2]

theorem foldl_accept_closed_fixed (evs : List AcceptEvent) (st : AcceptState)
    (h1 : st.serverClosed = true) (h2 : st.timerActive = false) :
    evs.foldl acceptStep st = st := by
  induction evs with
  | nil => rfl
  | cons ev rest ih => rw [List.foldl_cons, acceptStep_closed_fixed st ev h1 h2]; exact ih

theorem acceptStep_unbound (st : AcceptState) (ev : AcceptEvent)
    (hb : st.serverBound = false) (ha : st.connListenerAttached = false) :
    (acceptStep st ev).promise = st.promise ∧
    (acceptStep st ev).serverBound = false ∧
    (acceptStep st ev).connListenerAttached = false := by
  cases ev with
  | connection s => simp [acceptStep, ha, hb]
  | timerFire =>
    cases hta : st.timerActive
    · simp [acceptStep, hta, hb, ha]
    · simp [acceptStep, hta, hb, ha]

theorem foldl_accept_unbound (evs : List AcceptEvent) : ∀ st : AcceptState,
    st.serverBound = false → st.connListenerAttached = false →
    (evs.foldl acceptStep st).promise = st.promise := by
  induction evs with
  | nil => intro st _ _; rfl
  | cons ev rest ih =>
    intro st hb ha
    obtain ⟨h1, h2, h3⟩ := acceptStep_unbound st ev hb ha
    rw [List.foldl_cons, ← h1]
    exact ih (acceptStep st ev) h2 h3

theorem accept_pending_run (evs : List AcceptEvent) : ∀ st : AcceptState,
    st.promise = .pending → st.serverClosed = false → st.connListenerAttached = true →
    st.serverBound = true →
    (evs.foldl acceptStep st).endedSockets = st.endedSockets ∧
    (∀ s, (evs.foldl acceptStep st).promise = .resolved s →
        firstConnection evs = some s ∧ (evs.foldl acceptStep st).serverClosed = true) ∧
    ((evs.foldl acceptStep st).promise ≠ .pending →
        (evs.foldl acceptStep st).serverClosed = true) := by
  induction evs with
  | nil =>
    intro st h1 h2 h3 h4
    refine ⟨rfl, ?_, ?_⟩
    · intro s hs
      rw [List.foldl_nil, h1] at hs
      cases hs
    · intro hs
      rw [List.foldl_nil] at hs
      exact absurd h1 hs
  | cons ev rest ih =>
    intro st h1 h2 h3 h4
    cases ev with
    | connection s0 =>
      have hstep : acceptStep st (.connection s0) =
          { st with serverClosed := true, timerActive := false,
                    promise := .resolved s0 } := by
        simp [acceptStep, h2, h3, h1, PromiseResult.resolveP]
      have hfix := foldl_accept_closed_fixed rest
        { st with serverClosed := true, timerActive := false, promise := .resolved s0 }
        rfl rfl
      rw [List.foldl_cons, hstep, hfix]
      refine ⟨rfl, ?_, ?_⟩
      · intro s hs
        simp only [PromiseResult.resolved.injEq] at hs
        subst hs
        exact ⟨rfl, rfl⟩
      · intro _; rfl
    | timerFire =>
      by_cases hta : st.timerActive = true
      · have hstep : acceptStep st .timerFire =
            { st with connListenerAttached := false, serverClosed := true,
                      timerActive := false,
                      promise := .rejected
                        (.error "IPC server timed out before receiving a client connection") } := by
          simp [acceptStep, hta, h4, h1, PromiseResult.rejectP]
        have hfix := foldl_accept_closed_fixed rest
          { st with connListenerAttached := false, serverClosed := true,
                    timerActive := false,
                    promise := .rejected
                      (.error "IPC server timed out before receiving a client connection") }
          rfl rfl
        rw [List.foldl_cons, hstep, hfix]
        refine ⟨rfl, ?_, ?_⟩
        · intro s hs
          cases hs
        · intro _; rfl
      · have hta2 : st.timerActive = false := by
          cases h : st.timerActive
          · rfl
          · exact absurd h hta
        have hstep : acceptStep st .timerFire = st := by
          simp [acceptStep, hta2]
        rw [List.foldl_cons, hstep]
        obtain ⟨g1, g2, g3⟩ := ih st h1 h2 h3 h4
        refine ⟨g1, ?_, g3⟩
        intro s hs
        obtain ⟨f1, f2⟩ := g2 s hs
        exact ⟨by simpa [firstConnection] using f1, f2⟩

theorem accept_first_connection (timeout : Nat) (s0 : Nat) (rest : List AcceptEvent) :
    ((AcceptEvent.connection s0 :: rest).foldl acceptStep
        (acceptInit timeout (.ok ()))).promise = .resolved s0 := by
  have hstep : acceptStep (acceptInit timeout (.ok ())) (.connection s0) =
      { acceptInit timeout (.ok ()) with
        serverClosed := true, timerActive := false, promise := .resolved s0 } := by
    simp [acceptStep, acceptInit, PromiseResult.resolveP, Except.isOk, Except.toBool]
  have hfix := foldl_accept_closed_fixed rest
    { acceptInit timeout (.ok ()) with
      serverClosed := true, timerActive := false, promise := .resolved s0 }
    rfl rfl
  rw [List.foldl_cons, hstep, hfix]

/-! ### Connector lemmas -/

theorem retryModel_error_mem (endTime : Nat) :
    ∀ (script : List (Nat × Except JsError Socket)) (e : JsError),
    retryModel endTime script = some (.error e) →
    ∃ t, (t, Except.error e) ∈ script ∧ endTime ≤ t := by
  intro script
  induction script with
  | nil => intro e h; simp [retryModel] at h
  | cons entry rest ih =>
    intro e h
    obtain ⟨t, r⟩ := entry
    cases r with
    | ok s => simp [retryModel] at h
    | error e' =>
      simp only [retryModel] at h
      split_ifs at h with hle
      · simp only [Option.some.injEq, Except.error.injEq] at h
        subst h
        exact ⟨t, List.mem_cons_self _ _, hle⟩
      · obtain ⟨t', hmem, hle'⟩ := ih e h
        exact ⟨t', List.mem_cons_of_mem _ hmem, hle'⟩

theorem retryModel_ok_mem (endTime : Nat) :
    ∀ (script : List (Nat × Except JsError Socket)) (s : Socket),
    retryModel endTime script = some (.ok s) →
    ∃ t, (t, Except.ok s) ∈ script := by
  intro script
  induction script with
  | nil => intro s h; simp [retryModel] at h
  | cons entry rest ih =>
    intro s h
    obtain ⟨t, r⟩ := entry
    cases r with
    | ok s' =>
      simp only [retryModel, Option.some.injEq, Except.ok.injEq] at h
      subst h
      exact ⟨t, List.mem_cons_self _ _⟩
    | error e' =>
      simp only [retryModel] at h
      split_ifs at h with hle
      · simp at h
      · obtain ⟨t', hmem⟩ := ih s h
        exact ⟨t', List.mem_cons_of_mem _ hmem⟩

theorem bareConnect_ok_not_destroyed (k : Nat) (ev : ConnectEvent) (d : Bool)
    (s : Socket) (h : bareConnectModel k ev d = .ok s) : s.destroyed = false := by
  cases ev with
  | errored e => simp [bareConnectModel] at h
  | connected =>
    cases hd : d
    · simp only [bareConnectModel, hd] at h
      split_ifs at h
      · simp only [Except.ok.injEq] at h
        rw [← h]
      · simp only [Except.ok.injEq] at h
        rw [← h]
    · simp only [bareConnectModel, hd] at h
      split_ifs at h with h1
      · simp only [Except.ok.injEq] at h
        rw [← h]

/-! ### Path converter characterization -/

theorem localPathConverterGo_find (ms : List PathMapping) (p : String) :
    localPathConverterGo ms p =
      (match ms.find? (fun m => strStartsWith p m.loc) with
       | some m => m.rem ++ strDrop p (strLength m.loc)
       | none => p) := by
  induction ms with
  | nil => rfl
  | cons m rest ih =>
    cases h : strStartsWith p m.loc with
    | false =>
      simp only [localPathConverterGo, List.find?, h, ih]
      simp
    | true =>
      simp only [localPathConverterGo, List.find?, h]
      simp

/-! ## The claims -/

/-- C1 (code_bug): the spec says each message forwarded by the ProxyBridge is
re-encoded as its JSON serialization followed by a single `'\n'` — but the
handler at lines 31-33 of the worker-proxy source writes
`JSON.stringify(transform(JSON.parse(data)))` with no newline.  Forwarding
the two messages `7` and `8` with the identity transform writes the bytes
`"78"`, not `"7\n8\n"`; the remote peer's newline-splitting decoder then
yields the single message `78` instead of `7` followed by `8`. -/
theorem createWorkerProxy_forward_omits_newline :
    bridgeForwardBytes (fun m => m) [['7'], ['8']] = some ['7', '8'] ∧
    writeMessageBytes (Json.num 7) ++ writeMessageBytes (Json.num 8) =
      ['7', '\n', '8', '\n'] ∧
    (['7', '8'] : List Char) ≠ ['7', '\n', '8', '\n'] ∧
    readMessagesModel ['7', '8'] = [some (Json.num 78)] ∧
    readMessagesModel ['7', '\n', '8', '\n'] = [some (Json.num 7), some (Json.num 8)] :=
  ⟨rfl, rfl, by decide, rfl, rfl⟩

/-- C2 (code_bug): the spec says a listen failure fails the accept
immediately with `listenError`, surfaced as a rejected result.  In the code,
`receiveConnection`'s executor is an `async` function whose rejection the
`Promise` constructor discards, so when `createServerAndListen` rejects the
returned promise never settles — for every timeout and event script the
promise stays pending; moreover when the timer fires, `onTimeout` reads the
never-initialized `server` binding and raises an uncaught exception. -/
theorem receiveConnection_listen_failure_never_rejects :
    ∀ (timeout : Nat) (e : JsError) (evs : List AcceptEvent),
      (receiveConnectionModel timeout (.error e) evs).promise = .pending ∧
      (receiveConnectionModel 5000 (.error (.sysError "EADDRINUSE")) [.timerFire]).promise
        = .pending ∧
      (receiveConnectionModel 5000 (.error (.sysError "EADDRINUSE")) [.timerFire]).uncaught
        = true := by
  intro timeout e evs
  exact ⟨foldl_accept_unbound evs (acceptInit timeout (.error e)) rfl rfl, rfl, rfl⟩

/-- C3 (counterexample): the claim says a retrying connect that gives up
past the deadline propagates a structured `ConnectFailure{reason: timeout}`
rather than a generic error.  In the code `retry` re-throws the last
attempt's error unchanged: the failure produced by a timed-out retrying
connect is the identical generic `ECONNREFUSED` error value that a bare
non-retrying refused attempt produces, so no wrapper distinguishes the
timeout reason. -/
theorem retry_timeout_error_not_structured :
    createConnectionModel 5000 10 0 [(6000, .errored (.sysError "ECONNREFUSED"), false)] =
      some (.error (.sysError "ECONNREFUSED")) ∧
    createConnectionModel 0 10 0 [(0, .errored (.sysError "ECONNREFUSED"), false)] =
      some (.error (.sysError "ECONNREFUSED")) ∧
    createConnectionModel 5000 10 0 [(6000, .errored (.sysError "ECONNREFUSED"), false)] =
      createConnectionModel 0 10 0 [(0, .errored (.sysError "ECONNREFUSED"), false)] :=
  ⟨rfl, rfl, rfl⟩

/-- C3 (amended): when the retrying connector gives up after the deadline,
it propagates the last underlying attempt error itself, unchanged — the
thrown error is exactly the error of a script attempt that settled at or
after the deadline; no structured wrapper is added. -/
theorem retry_propagates_last_error :
    ∀ (endTime : Nat) (script : List (Nat × Except JsError Socket)) (e : JsError),
      retryModel endTime script = some (.error e) →
      ∃ t, (t, Except.error e) ∈ script ∧ endTime ≤ t := by
  intro endTime script e h
  exact retryModel_error_mem endTime script e h

theorem retry_propagates_last_error_witness :
    ∃ t, (t, Except.error (JsError.sysError "ECONNREFUSED")) ∈
        [(6000, (Except.error (JsError.sysError "ECONNREFUSED") : Except JsError Socket))] ∧
      5000 ≤ t :=
  retry_propagates_last_error 5000 [(6000, .error (.sysError "ECONNREFUSED"))]
    (.sysError "ECONNREFUSED") rfl

/-- C4: with a positive `rejectClosedSocket` window, a bare attempt whose
socket is destroyed during the window rejects with the distinct
`'IPC client socket was closed immediately'` failure (the spec's
`rejectedClosed` reason) instead of succeeding; every successful bare
attempt resolves with a socket whose sampled `destroyed` flag is false; and
a successful retrying connect returns a socket produced unchanged by one of
its attempts, so it too is never a socket observed destroyed during the
window. -/
theorem createConnection_rejectClosedSocket_invariant :
    ∀ (k : Nat) (ev : ConnectEvent) (d : Bool) (endTime : Nat)
      (script : List (Nat × Except JsError Socket)),
      0 < k →
      bareConnectModel k .connected true =
        .error (.error "IPC client socket was closed immediately") ∧
      (∀ s, bareConnectModel k ev d = .ok s → s.destroyed = false) ∧
      (∀ s, retryModel endTime script = some (.ok s) → ∃ t, (t, Except.ok s) ∈ script) := by
  intro k ev d endTime script hk
  refine ⟨?_, ?_, ?_⟩
  · simp [bareConnectModel, hk]
  · intro s h
    exact bareConnect_ok_not_destroyed k ev d s h
  · intro s h
    exact retryModel_ok_mem endTime script s h

theorem createConnection_rejectClosedSocket_invariant_witness :
    bareConnectModel 10 .connected true =
      .error (.error "IPC client socket was closed immediately") ∧
    (∃ t, (t, Except.ok ({ destroyed := false } : Socket)) ∈
        [(0, (Except.ok ({ destroyed := false } : Socket) : Except JsError Socket))]) := by
  have h := createConnection_rejectClosedSocket_invariant 10 .connected false 0
    [(0, .ok { destroyed := false })] (by decide)
  exact ⟨h.1, h.2.2 { destroyed := false } rfl⟩

/-- C5: after a successful listen, a `receiveConnection` call never ends any
accepted socket; if it resolves, it resolves with exactly the first
connection of the event script (later connections are ignored) and its
listening server is closed; whenever it settles (resolve or timeout
rejection) the listening server is closed; and a script whose first event is
a connection resolves with that connection. -/
theorem receiveConnection_single_shot :
    ∀ (timeout : Nat) (evs : List AcceptEvent),
      (receiveConnectionModel timeout (.ok ()) evs).endedSockets = [] ∧
      (∀ s, (receiveConnectionModel timeout (.ok ()) evs).promise = .resolved s →
          firstConnection evs = some s ∧
          (receiveConnectionModel timeout (.ok ()) evs).serverClosed = true) ∧
      ((receiveConnectionModel timeout (.ok ()) evs).promise ≠ .pending →
          (receiveConnectionModel timeout (.ok ()) evs).serverClosed = true) ∧
      (∀ s rest, evs = .connection s :: rest →
          (receiveConnectionModel timeout (.ok ()) evs).promise = .resolved s) := by
  intro timeout evs
  obtain ⟨g1, g2, g3⟩ := accept_pending_run evs (acceptInit timeout (.ok ())) rfl rfl rfl rfl
  refine ⟨g1, g2, g3, ?_⟩
  intro s rest h
  subst h
  exact accept_first_connection timeout s rest

theorem receiveConnection_single_shot_witness :
    firstConnection [AcceptEvent.connection 7, AcceptEvent.connection 8] = some 7 ∧
    (receiveConnectionModel 5000 (.ok ()) [.connection 7, .connection 8]).serverClosed
      = true ∧
    (receiveConnectionModel 5000 (.ok ()) [.connection 7, .connection 8]).promise
      = .resolved 7 := by
  have h := receiveConnection_single_shot 5000 [.connection 7, .connection 8]
  have hres := h.2.2.2 7 [.connection 8] rfl
  obtain ⟨f1, f2⟩ := h.2.1 7 hres
  exact ⟨f1, f2, hres⟩

/-- C6: the newline-delimited codec round-trips: decoding the bytes written
by `writeMessage` for any JSON value (nested arrays and objects included)
yields exactly that value, and decoding the concatenated bytes of any
sequence of messages written on one connection delivers exactly those
messages, in write order, with the empty segments produced by the trailing
newlines discarded. -/
theorem codec_roundtrip_in_order :
    (∀ v : Json, readMessagesModel (writeMessageBytes v) = [some v]) ∧
    (∀ msgs : List Json, readMessagesModel (encodeStream msgs) = msgs.map some) := by
  constructor
  · intro v
    have h := readMessages_encodeStream [v]
    simpa [encodeStream] using h
  · exact readMessages_encodeStream

/-- C7: `dispose()` on a worker-proxy handle never throws from any handle
state, leaves the remote connection ended, ends the local connection when
one was accepted, stops the still-listening local server when none was, and
a second `dispose()` is a no-op returning the same state without throwing —
so calling it any number of times, at any point of the lifecycle, is
safe. -/
theorem dispose_idempotent_safe :
    ∀ st : ProxyHandleState, ∃ st2,
      disposeModel st = .ok st2 ∧
      st2.remoteEnded = true ∧
      (∀ v, st.localSocket = some v → st2.localEnded = true) ∧
      (st.localSocket = none → st2.proxyListening = false) ∧
      disposeModel st2 = .ok st2 := by
  intro st
  obtain ⟨r, ls, le, pl⟩ := st
  cases ls with
  | some v =>
    refine ⟨{ remoteEnded := true, localSocket := some v, localEnded := true,
              proxyListening := pl }, rfl, rfl, ?_, ?_, rfl⟩
    · intro _ _; rfl
    · intro h; cases h
  | none =>
    cases pl with
    | true =>
      refine ⟨{ remoteEnded := true, localSocket := none, localEnded := le,
                proxyListening := false }, rfl, rfl, ?_, ?_, rfl⟩
      · intro v h; cases h
      · intro _; rfl
    | false =>
      refine ⟨{ remoteEnded := true, localSocket := none, localEnded := le,
                proxyListening := false }, rfl, rfl, ?_, ?_, rfl⟩
      · intro v h; cases h
      · intro _; rfl

theorem dispose_idempotent_safe_witness :
    ∃ st2,
      disposeModel { remoteEnded := false, localSocket := some 1, localEnded := false,
                     proxyListening := false } = .ok st2 ∧
      st2.remoteEnded = true ∧ st2.localEnded = true := by
  obtain ⟨st2, h1, h2, h3, h4, h5⟩ := dispose_idempotent_safe
    { remoteEnded := false, localSocket := some 1, localEnded := false,
      proxyListening := false }
  exact ⟨st2, h1, h2, h3 1 rfl⟩

/-- C8: in `createWorkerProxy`, when the remote connection succeeds but the
local listen fails, the `catch` block first ends the remote socket and only
then re-throws the listen error: the setup's action trace is exactly
`[remoteEnd, throwErr e]`, so no remote leg is left open on error. -/
theorem createWorkerProxy_listen_failure_teardown :
    ∀ e : JsError,
      createWorkerProxySetupTrace (.ok ()) (.error e) =
        [ProxySetupAction.remoteEnd, ProxySetupAction.throwErr e] := by
  intro e
  rfl

/-- C9: the converter built by `localPathConverter` applies the first
mapping whose `local` string is a character-wise prefix of the path,
replacing that prefix by the mapping's `remote` string and keeping the rest
of the path; with no matching mapping the path is returned unchanged; the
standalone `convertPath` agrees with the single-mapping converter; and on
the spec's concrete examples it rewrites `"/local/a/b"` to `"/remote/a/b"`,
leaves `"/other/x"` unchanged, and lets the first of two matching mappings
win. -/
theorem localPathConverter_first_match :
    (∀ (ms : List PathMapping) (p : String) (m : PathMapping),
        ms.find? (fun mp => strStartsWith p mp.loc) = some m →
        localPathConverter ms p = m.rem ++ strDrop p (strLength m.loc)) ∧
    (∀ (ms : List PathMapping) (p : String),
        ms.find? (fun mp => strStartsWith p mp.loc) = none →
        localPathConverter ms p = p) ∧
    (∀ (p a b : String), convertPath p a b = localPathConverter [⟨a, b⟩] p) ∧
    localPathConverter [⟨"/local/", "/remote/"⟩] "/local/a/b" = "/remote/a/b" ∧
    localPathConverter [⟨"/local/", "/remote/"⟩] "/other/x" = "/other/x" ∧
    localPathConverter [⟨"/a/", "/XX/"⟩, ⟨"/a", "/YY"⟩] "/a/b" = "/XX/b" := by
  refine ⟨?_, ?_, ?_, by decide, by decide, by decide⟩
  · intro ms p m h
    unfold localPathConverter
    rw [localPathConverterGo_find, h]
  · intro ms p h
    unfold localPathConverter
    rw [localPathConverterGo_find, h]
  · intro p a b
    unfold convertPath localPathConverter localPathConverterGo
    rfl

theorem localPathConverter_first_match_witness :
    localPathConverter [⟨"/local/", "/remote/"⟩] "/local/a/b" =
      "/remote/" ++ strDrop "/local/a/b" (strLength "/local/") := by
  exact localPathConverter_first_match.1 [⟨"/local/", "/remote/"⟩] "/local/a/b"
    ⟨"/local/", "/remote/"⟩ (by decide)

/-- C10 (counterexample): the claim says `convertWorkerArgs` converts
`mochaPath` whenever it is present.  The source uses the JS truthiness test
`workerArgs.mochaPath ? convertPath(workerArgs.mochaPath) : undefined`, and
the empty string is falsy: on a `WorkerArgs` whose `mochaPath` is `some ""`
the result's `mochaPath` is `none`, not the converted present value. -/
theorem convertWorkerArgs_empty_mochaPath_counterexample :
    sampleWorkerArgs.mochaPath = some "" ∧
    (convertWorkerArgs sampleWorkerArgs (fun p => p)).mochaPath = none ∧
    (convertWorkerArgs sampleWorkerArgs (fun p => p)).mochaPath ≠
      (sampleWorkerArgs.mochaPath).map (fun p => p) := by
  refine ⟨rfl, by decide, by decide⟩

/-- C10 (amended): `convertWorkerArgs` returns a copy in which `cwd` is the
converted `cwd`, `testFiles` is the element-wise converted list (same length
and order), `mochaPath` is the converted `mochaPath` when present and
non-empty and `none` when absent or the empty string (the source's JS
truthiness test), and every other field — `action`, `tests`, `env`,
`mochaOpts`, `monkeyPatch`, `logEnabled`, `workerScript`, `debuggerPort` —
is unchanged; the input record itself is not modified (the function builds a
new record from a spread copy). -/
theorem convertWorkerArgs_amended :
    ∀ (wa : WorkerArgs) (f : String → String),
      (convertWorkerArgs wa f).cwd = f wa.cwd ∧
      (convertWorkerArgs wa f).testFiles = wa.testFiles.map f ∧
      (∀ s, wa.mochaPath = some s → s ≠ "" →
          (convertWorkerArgs wa f).mochaPath = some (f s)) ∧
      (wa.mochaPath = none → (convertWorkerArgs wa f).mochaPath = none) ∧
      (wa.mochaPath = some "" → (convertWorkerArgs wa f).mochaPath = none) ∧
      (convertWorkerArgs wa f).action = wa.action ∧
      (convertWorkerArgs wa f).tests = wa.tests ∧
      (convertWorkerArgs wa f).env = wa.env ∧
      (convertWorkerArgs wa f).mochaOpts = wa.mochaOpts ∧
      (convertWorkerArgs wa f).monkeyPatch = wa.monkeyPatch ∧
      (convertWorkerArgs wa f).logEnabled = wa.logEnabled ∧
      (convertWorkerArgs wa f).workerScript = wa.workerScript ∧
      (convertWorkerArgs wa f).debuggerPort = wa.debuggerPort := by
  intro wa f
  have hmp1 : ∀ s, wa.mochaPath = some s → s ≠ "" →
      (convertWorkerArgs wa f).mochaPath = some (f s) := by
    intro s h hne
    simp [convertWorkerArgs, h, hne]
  have hmp2 : wa.mochaPath = none → (convertWorkerArgs wa f).mochaPath = none := by
    intro h
    simp [convertWorkerArgs, h]
  have hmp3 : wa.mochaPath = some "" → (convertWorkerArgs wa f).mochaPath = none := by
    intro h
    simp [convertWorkerArgs, h]
  exact ⟨rfl, rfl, hmp1, hmp2, hmp3, rfl, rfl, rfl, rfl, rfl, rfl, rfl, rfl⟩

theorem convertWorkerArgs_amended_witness :
    (convertWorkerArgs { sampleWorkerArgs with mochaPath := some "/m" }
        (fun p => p)).mochaPath = some "/m" ∧
    (convertWorkerArgs sampleWorkerArgs (fun p => p)).mochaPath = none := by
  have h1 := convertWorkerArgs_amended { sampleWorkerArgs with mochaPath := some "/m" }
    (fun p => p)
  have h2 := convertWorkerArgs_amended sampleWorkerArgs (fun p => p)
  exact ⟨h1.2.2.1 "/m" rfl (by decide), h2.2.2.2.2.1 rfl⟩
